import Mathlib

set_option maxHeartbeats 1000000

/-!
Verification of the govdata.js FPDS fetch engine.

This file gives a shallow embedding of the relevant TypeScript source files
(src/utils/validators.ts, src/utils/errors.ts + xml-processor,
src/core/fpds/field-mapper.ts, contract-processor.ts, fpds-request.ts,
semaphore.ts) and proves properties about the embedded definitions.

JavaScript strings are modelled as Lean `String`; JS numbers as `Int` plus an
explicit `nan` value (the fractional/exponent behaviour of JS numbers is not
exercised by any property proved here, and the `parseFloat`/`parseInt`
builtins are modelled on their decimal-integer fragment); JS objects as
insertion-ordered association lists.  External effects (HTTP transport, XML
parsing library, timers, promise scheduling) are modelled as explicit
parameters or explicit schedules.
-/

namespace GovData

/-- JavaScript runtime values as they occur in this codebase: strings,
numbers (integer fragment plus NaN), booleans, null, undefined, plain
objects (insertion-ordered association lists) and arrays. -/
inductive JSVal where
  | str (s : String)
  | num (n : Int)
  | nan
  | boolv (b : Bool)
  | nullv
  | undef
  | obj (fields : List (String × JSVal))
  | arr (elems : List JSVal)

/-- Is a value `undefined` or `null` (the values skipped by the
parameter validator and the parameter filter)? -/
def JSVal.isUndefOrNull : JSVal → Bool
  | .undef => true
  | .nullv => true
  | _ => false

/-- Strict equality `=== 'true'` against the literal string `"true"`. -/
def JSVal.isLiteralTrue : JSVal → Bool
  | .str s => s == "true"
  | _ => false

/-- JS truthiness: empty string, 0, NaN, false, null, undefined are falsy;
all other values (including every object and array) are truthy. -/
def JSVal.truthy : JSVal → Bool
  | .str s => s != ""
  | .num n => n != 0
  | .nan => false
  | .boolv b => b
  | .nullv => false
  | .undef => false
  | .obj _ => true
  | .arr _ => true

/-- `Array.prototype.join` stringification of array elements: null and
undefined become empty, nested arrays join recursively, other values take
their String() form. -/
def jsArrStr : List JSVal → List String
  | [] => []
  | .arr elems :: rest => String.intercalate "," (jsArrStr elems) :: jsArrStr rest
  | .nullv :: rest => "" :: jsArrStr rest
  | .undef :: rest => "" :: jsArrStr rest
  | .str s :: rest => s :: jsArrStr rest
  | .num n :: rest => toString n :: jsArrStr rest
  | .nan :: rest => "NaN" :: jsArrStr rest
  | .boolv b :: rest => (if b then "true" else "false") :: jsArrStr rest
  | .obj _ :: rest => "[object Object]" :: jsArrStr rest
termination_by l => sizeOf l
decreasing_by all_goals simp_arith

/-- JS String() coercion for the values above.  Arrays stringify by joining
their elements with commas, with null/undefined elements becoming empty. -/
def JSVal.toStr : JSVal → String
  | .str s => s
  | .num n => toString n
  | .nan => "NaN"
  | .boolv b => if b then "true" else "false"
  | .nullv => "null"
  | .undef => "undefined"
  | .obj _ => "[object Object]"
  | .arr elems => String.intercalate "," (jsArrStr elems)

/-- A JS object value seen as an ordered association list of properties. -/
abbrev Record := List (String × JSVal)

/-- Property read `r[k]`: the first binding for `k`, or `undefined`. -/
def getProp (r : Record) (k : String) : JSVal :=
  match r.find? (fun p => p.1 == k) with
  | some p => p.2
  | none => (.undef)

/-- Property write `r[k] = v`: replaces the value in place if the key is
present (keeping insertion order), otherwise appends the new key. -/
def setProp (r : Record) (k : String) (v : JSVal) : Record :=
  if r.any (fun p => p.1 == k) then
    r.map (fun p => if p.1 == k then (k, v) else p)
  else r ++ [(k, v)]

/-- Numeric value of a list of decimal digit characters. -/
def digitsToNat (ds : List Char) : Nat :=
  ds.foldl (fun a c => a * 10 + (c.toNat - 48)) 0

/-- Models the JS `parseFloat` / `parseInt(­, 10)` builtins on their shared
decimal-integer fragment: optional leading whitespace, an optional sign,
then decimal digits (trailing garbage ignored); no digits means NaN.
Fractional parts and exponents do not influence any property proved here. -/
def parseNumJS (s : String) : JSVal :=
  let cs := s.data.dropWhile Char.isWhitespace
  let signAndRest : Bool × List Char :=
    match cs with
    | '-' :: r => (true, r)
    | '+' :: r => (false, r)
    | r => (false, r)
  let ds := signAndRest.2.takeWhile Char.isDigit
  if ds.isEmpty then .nan
  else .num (if signAndRest.1 then -(digitsToNat ds : Int) else (digitsToNat ds : Int))

/-- validators.ts `parseFloatSafe`: falsy input gives 0, NaN parses give 0,
otherwise the parsed number. -/
def parseFloatSafe (value : JSVal) : JSVal :=
  if !value.truthy then .num 0
  else match parseNumJS value.toStr with
    | .nan => .num 0
    | parsed => parsed

/-- validators.ts `parseIntSafe` (parseInt with radix 10). -/
def parseIntSafe (value : JSVal) : JSVal :=
  if !value.truthy then .num 0
  else match parseNumJS value.toStr with
    | .nan => .num 0
    | parsed => parsed

/-- validators.ts `convertBooleanToString`: booleans map to Yes/No; any other
value maps to Yes exactly when it is the literal string "true". -/
def convertBooleanToString (value : JSVal) : String :=
  match value with
  | .boolv b => if b then "Yes" else "No"
  | v => if v.isLiteralTrue then "Yes" else "No"

/-- The JS `\s` character class restricted to ASCII (the inputs validated in
this codebase contain no exotic Unicode whitespace). -/
def jsWhitespace (c : Char) : Bool :=
  c = ' ' ∨ c = '\t' ∨ c = '\n' ∨ c = '\r' ∨ c = '\x0b' ∨ c = '\x0c'

/-- JS `String.prototype.trim` on the characters of `jsWhitespace`. -/
def jsTrim (s : String) : String :=
  ⟨((s.data.dropWhile jsWhitespace).reverse.dropWhile jsWhitespace).reverse⟩

/-- Consume exactly `n` decimal digits. -/
def matchDigits : Nat → List Char → Option (List Char)
  | 0, cs => some cs
  | _ + 1, [] => none
  | n + 1, c :: cs => if c.isDigit then matchDigits n cs else none

/-- Consume exactly the character `ch`. -/
def matchLit (ch : Char) : List Char → Option (List Char)
  | [] => none
  | c :: cs => if c = ch then some cs else none

/-- Consume a `YYYY/MM/DD` date component. -/
def matchDate (cs : List Char) : Option (List Char) := do
  let r1 ← matchDigits 4 cs
  let r2 ← matchLit '/' r1
  let r3 ← matchDigits 2 r2
  let r4 ← matchLit '/' r3
  matchDigits 2 r4

/-- validators.ts `validateDateRange`: the anchored regex
`^\[\d{4}\/\d{2}\/\d{2}\s*,\s*\d{4}\/\d{2}\/\d{2}\]$` as a direct matcher
(the whitespace runs are greedy, which coincides with the regex because
whitespace is disjoint from `,` and from digits). -/
def validateDateRange (dateRange : String) : Bool :=
  match dateRange.data with
  | '[' :: r0 =>
    match matchDate r0 with
    | some r1 =>
      match r1.dropWhile jsWhitespace with
      | ',' :: r2 =>
        match matchDate (r2.dropWhile jsWhitespace) with
        | some [']'] => true
        | _ => false
      | _ => false
    | none => false
  | _ => false

/-- validators.ts `validatePIID`: truthy and non-whitespace-only. -/
def validatePIID (piid : String) : Bool :=
  piid != "" && !(jsTrim piid).isEmpty

/-- validators.ts `validateNAICSCode`: exactly six digits. -/
def validateNAICSCode (naics : String) : Bool :=
  naics.data.length == 6 && naics.data.all Char.isDigit

/-- validators.ts `validatePSCCode`: one uppercase letter then three digits. -/
def validatePSCCode (psc : String) : Bool :=
  match psc.data with
  | [c, d1, d2, d3] => c.isUpper && d1.isDigit && d2.isDigit && d3.isDigit
  | _ => false

/-- validators.ts `validateAgencyCode`: exactly four digits. -/
def validateAgencyCode (agencyCode : String) : Bool :=
  agencyCode.data.length == 4 && agencyCode.data.all Char.isDigit

/-- errors.ts: the GovDataError hierarchy as a tagged variant type. -/
inductive GErr where
  | validation (parameter : String) (value : String) (suggestions : List String)
  | request (message : String) (statusCode : Nat)
  | network (message : String)
  | parse (message : String)
deriving DecidableEq

/-- One arm of the `switch` in validators.ts `validateSearchParams`:
undefined/null values are skipped, and each validated key only checks
string-typed values. -/
def checkSearchParam (key : String) (value : JSVal) : Except GErr Unit :=
  if value.isUndefOrNull then .ok ()
  else if key == "LAST_MOD_DATE" then
    match value with
    | .str s =>
      if !validateDateRange s then
        .error (.validation key s
          ["Use format: [YYYY/MM/DD, YYYY/MM/DD]", "Example: [2022/01/01, 2024/12/31]"])
      else .ok ()
    | _ => .ok ()
  else if key == "PIID" ∨ key == "REF_IDV_PIID" then
    match value with
    | .str s =>
      if !validatePIID s then
        .error (.validation key s
          ["Contract ID cannot be empty", "Remove any leading/trailing whitespace"])
      else .ok ()
    | _ => .ok ()
  else if key == "PRINCIPAL_NAICS_CODE" ∨ key == "NAICS_CODE" then
    match value with
    | .str s =>
      if !validateNAICSCode s then
        .error (.validation key s
          ["NAICS code must be exactly 6 digits", "Example: 541511"])
      else .ok ()
    | _ => .ok ()
  else if key == "PRODUCT_OR_SERVICE_CODE" ∨ key == "PSC_CODE" then
    match value with
    | .str s =>
      if !validatePSCCode s then
        .error (.validation key s
          ["PSC code must be 1 letter followed by 3 digits", "Example: R425"])
      else .ok ()
    | _ => .ok ()
  else if key == "AGENCY_CODE" ∨ key == "CONTRACTING_AGENCY_ID" ∨ key == "FUNDING_AGENCY_ID" then
    match value with
    | .str s =>
      if !validateAgencyCode s then
        .error (.validation key s
          ["Agency code must be exactly 4 digits", "Example: 9700"])
      else .ok ()
    | _ => .ok ()
  else .ok ()

/-- validators.ts `validateSearchParams`: iterate the entries, throwing the
first ValidationError encountered. -/
def validateSearchParams (params : List (String × JSVal)) : Except GErr Unit :=
  params.forM (fun p => checkSearchParam p.1 p.2)

/-- xml-processor.ts `flattenXMLPaths`: walk the properties in order; a
(truthy, non-array) object value is recursed into with the extended
path-prefix, every other value is stored into the accumulating result
under its path-key.  null and arrays are stored, not recursed. -/
def flattenXMLPaths : List (String × JSVal) → String → List (String × JSVal) → List (String × JSVal)
  | [], _, result => result
  | (key, .obj fields) :: rest, pre, result =>
    let newKey := if pre = "" then key else pre ++ "__" ++ key
    flattenXMLPaths rest pre (flattenXMLPaths fields newKey result)
  | (key, value) :: rest, pre, result =>
    let newKey := if pre = "" then key else pre ++ "__" ++ key
    flattenXMLPaths rest pre (setProp result newKey value)
termination_by o _ _ => sizeOf o
decreasing_by
  all_goals simp_arith [Prod.mk.sizeOf_spec, JSVal.obj.sizeOf_spec]

/-! ### SHA-256 (the `crypto` createHash('sha256') builtin, FIPS 180-4) -/

/-- Truncation to a 32-bit word. -/
def w32 (n : Nat) : Nat := n % 4294967296

/-- Right rotation of a 32-bit word. -/
def rotr32 (n x : Nat) : Nat := w32 ((x >>> n) ||| (x <<< (32 - n)))

/-- SHA-256 Ch function (complement via xor with the 32-bit mask). -/
def ch32 (x y z : Nat) : Nat := (x &&& y) ^^^ ((x ^^^ 0xFFFFFFFF) &&& z)

/-- SHA-256 Maj function. -/
def maj32 (x y z : Nat) : Nat := (x &&& y) ^^^ (x &&& z) ^^^ (y &&& z)

/-- SHA-256 Σ0. -/
def bigSigma0 (x : Nat) : Nat := rotr32 2 x ^^^ rotr32 13 x ^^^ rotr32 22 x

/-- SHA-256 Σ1. -/
def bigSigma1 (x : Nat) : Nat := rotr32 6 x ^^^ rotr32 11 x ^^^ rotr32 25 x

/-- SHA-256 σ0. -/
def smallSigma0 (x : Nat) : Nat := rotr32 7 x ^^^ rotr32 18 x ^^^ (x >>> 3)

/-- SHA-256 σ1. -/
def smallSigma1 (x : Nat) : Nat := rotr32 17 x ^^^ rotr32 19 x ^^^ (x >>> 10)

/-- The 64 SHA-256 round constants. -/
def sha256K : List Nat :=
  [0x428A2F98, 0x71374491, 0xB5C0FBCF, 0xE9B5DBA5, 0x3956C25B,
   0x59F111F1, 0x923F82A4, 0xAB1C5ED5, 0xD807AA98, 0x12835B01,
   0x243185BE, 0x550C7DC3, 0x72BE5D74, 0x80DEB1FE, 0x9BDC06A7,
   0xC19BF174, 0xE49B69C1, 0xEFBE4786, 0x0FC19DC6, 0x240CA1CC,
   0x2DE92C6F, 0x4A7484AA, 0x5CB0A9DC, 0x76F988DA, 0x983E5152,
   0xA831C66D, 0xB00327C8, 0xBF597FC7, 0xC6E00BF3, 0xD5A79147,
   0x06CA6351, 0x14292967, 0x27B70A85, 0x2E1B2138, 0x4D2C6DFC,
   0x53380D13, 0x650A7354, 0x766A0ABB, 0x81C2C92E, 0x92722C85,
   0xA2BFE8A1, 0xA81A664B, 0xC24B8B70, 0xC76C51A3, 0xD192E819,
   0xD6990624, 0xF40E3585, 0x106AA070, 0x19A4C116, 0x1E376C08,
   0x2748774C, 0x34B0BCB5, 0x391C0CB3, 0x4ED8AA4A, 0x5B9CCA4F,
   0x682E6FF3, 0x748F82EE, 0x78A5636F, 0x84C87814, 0x8CC70208,
   0x90BEFFFA, 0xA4506CEB, 0xBEF9A3F7, 0xC67178F2]

/-- The eight SHA-256 working registers. -/
structure Sha8 where
  a : Nat
  b : Nat
  c : Nat
  d : Nat
  e : Nat
  f : Nat
  g : Nat
  h : Nat

/-- One SHA-256 compression round. -/
def sha256Round (k w : Nat) (s : Sha8) : Sha8 :=
  let T1 := w32 (s.h + bigSigma1 s.e + ch32 s.e s.f s.g + k + w)
  let T2 := w32 (bigSigma0 s.a + maj32 s.a s.b s.c)
  ⟨w32 (T1 + T2), s.a, s.b, s.c, w32 (s.d + T1), s.e, s.f, s.g⟩

/-- Message schedule: 16 big-endian words from the 64-byte block, extended
to 64 words. -/
def sha256Schedule (block : List Nat) : List Nat :=
  let w0 := (List.range 16).map (fun i =>
    block.getD (4 * i) 0 * 16777216 + block.getD (4 * i + 1) 0 * 65536 +
      block.getD (4 * i + 2) 0 * 256 + block.getD (4 * i + 3) 0)
  (List.range 48).foldl (fun w _ =>
    let n := w.length
    w ++ [w32 (smallSigma1 (w.getD (n - 2) 0) + w.getD (n - 7) 0 +
               smallSigma0 (w.getD (n - 15) 0) + w.getD (n - 16) 0)]) w0

/-- Process one 64-byte block. -/
def sha256Block (H : Sha8) (block : List Nat) : Sha8 :=
  let ws := sha256Schedule block
  let s := (List.range 64).foldl
    (fun s t => sha256Round (sha256K.getD t 0) (ws.getD t 0) s) H
  ⟨w32 (H.a + s.a), w32 (H.b + s.b), w32 (H.c + s.c), w32 (H.d + s.d),
   w32 (H.e + s.e), w32 (H.f + s.f), w32 (H.g + s.g), w32 (H.h + s.h)⟩

/-- Big-endian 8-byte encoding of a length in bits. -/
def be8Bytes (n : Nat) : List Nat :=
  (List.range 8).map (fun i => (n >>> (8 * (7 - i))) % 256)

/-- SHA-256 padding: 0x80, zeros to 56 mod 64, then the 64-bit bit length. -/
def sha256Pad (msg : List Nat) : List Nat :=
  let L := msg.length
  let z := (120 - (L + 1) % 64) % 64
  msg ++ 0x80 :: (List.replicate z 0 ++ be8Bytes (8 * L))

/-- The SHA-256 initial hash value. -/
def sha256InitH : Sha8 :=
  ⟨0x6A09E667, 0xBB67AE85, 0x3C6EF372,
   0xA54FF53A, 0x510E527F, 0x9B05688C,
   0x1F83D9AB, 0x5BE0CD19⟩

/-- Split a padded message into its 64-byte blocks. -/
def listChunks64 (msg : List Nat) : List (List Nat) :=
  (List.range (msg.length / 64)).map (fun i => (msg.drop (64 * i)).take 64)

/-- UTF-8 encoding of one character. -/
def utf8Bytes (c : Char) : List Nat :=
  let n := c.toNat
  if n < 128 then [n]
  else if n < 2048 then [192 + n / 64, 128 + n % 64]
  else if n < 65536 then [224 + n / 4096, 128 + (n / 64) % 64, 128 + n % 64]
  else [240 + n / 262144, 128 + (n / 4096) % 64, 128 + (n / 64) % 64, 128 + n % 64]

/-- UTF-8 encoding of a string, as the crypto `update` uses. -/
def strUtf8 (s : String) : List Nat := (s.data.map utf8Bytes).flatten

/-- Lowercase hexadecimal digit. -/
def hexDigitLower (n : Nat) : Char :=
  if n < 10 then Char.ofNat (48 + n) else Char.ofNat (87 + n)

/-- Two lowercase hex characters for one byte. -/
def byteToHex (b : Nat) : List Char := [hexDigitLower (b / 16), hexDigitLower (b % 16)]

/-- Big-endian bytes of one 32-bit word. -/
def be4Bytes (n : Nat) : List Nat :=
  [(n >>> 24) % 256, (n >>> 16) % 256, (n >>> 8) % 256, n % 256]

/-- `createHash('sha256').update(s).digest('hex')`. -/
def sha256Hex (s : String) : String :=
  let msg := sha256Pad (strUtf8 s)
  let H := (listChunks64 msg).foldl sha256Block sha256InitH
  ⟨((([H.a, H.b, H.c, H.d, H.e, H.f, H.g, H.h].map be4Bytes).flatten).map byteToHex).flatten⟩

/-! ### field-mapper.ts -/

/-- field-mapper.ts `generateContractHash`: the SHA-256 hex digest of
`contractNumber ++ ":" ++ awardDate`. -/
def generateContractHash (contractNumber : String) (awardDate : String) : String :=
  let hashString := contractNumber ++ ":" ++ awardDate
  sha256Hex hashString

/-- The `rawRecord[key] || ''` lookup pattern of mapRecord: the stored value
when truthy, otherwise the empty string. -/
def lookupStr (rawRecord : Record) (k : String) : JSVal :=
  let v := getProp rawRecord k
  if v.truthy then v else .str ""

/-- field-mapper.ts `FPDSFieldMapper.mapRecord`: projects a flattened raw
entry onto the fixed FPDSRecord shape, in the source's field order. -/
def mapRecord (rawRecord : Record) (sourceMetadata : JSVal) : Record :=
  [("contract_hash", .str (generateContractHash
      (lookupStr rawRecord "content__award__awardID__awardContractID__PIID").toStr
      (lookupStr rawRecord "content__award__relevantContractDates__signedDate").toStr)),
   ("contract_number", lookupStr rawRecord "content__award__awardID__awardContractID__PIID"),
   ("title", lookupStr rawRecord "title"),
   ("link", lookupStr rawRecord "link__href"),
   ("award_date", lookupStr rawRecord "content__award__relevantContractDates__signedDate"),
   ("award_amount", parseFloatSafe (getProp rawRecord "content__award__dollarValues__obligatedAmount")),
   ("total_potential_value", parseFloatSafe (getProp rawRecord "content__award__dollarValues__baseAndAllOptionsValue")),
   ("contract_type", lookupStr rawRecord "content__award__contractData__contractActionType__description"),
   ("project_description", lookupStr rawRecord "content__award__contractData__descriptionOfContractRequirement"),
   ("naics_code", lookupStr rawRecord "content__award__productOrServiceInformation__principalNAICSCode"),
   ("naics_description", lookupStr rawRecord "content__award__productOrServiceInformation__principalNAICSCode__description"),
   ("psc_code", lookupStr rawRecord "content__award__productOrServiceInformation__productOrServiceCode"),
   ("psc_description", lookupStr rawRecord "content__award__productOrServiceInformation__productOrServiceCode__description"),
   ("contracting_agency", lookupStr rawRecord "content__award__purchaserInformation__contractingOfficeAgencyID__name"),
   ("contracting_office_code", lookupStr rawRecord "content__award__purchaserInformation__contractingOfficeID"),
   ("contracting_office_name", lookupStr rawRecord "content__award__purchaserInformation__contractingOfficeID__name"),
   ("vendor_name", lookupStr rawRecord "content__award__vendor__vendorHeader__vendorName"),
   ("vendor_uei", lookupStr rawRecord "content__award__vendor__vendorSiteDetails__entityIdentifiers__vendorUEIInformation__UEI"),
   ("business_size", lookupStr rawRecord "content__award__vendor__contractingOfficerBusinessSizeDetermination__description"),
   ("vendor_city", lookupStr rawRecord "content__award__vendor__vendorSiteDetails__vendorLocation__city"),
   ("vendor_state", lookupStr rawRecord "content__award__vendor__vendorSiteDetails__vendorLocation__state"),
   ("sdvosb_status", .str (convertBooleanToString (getProp rawRecord "content__award__vendor__vendorSiteDetails__vendorSocioEconomicIndicators__isServiceRelatedDisabledVeteranOwnedBusiness"))),
   ("small_business_status", .str (convertBooleanToString (getProp rawRecord "content__award__vendor__vendorSiteDetails__vendorSocioEconomicIndicators__isSmallBusiness"))),
   ("women_owned_status", .str (convertBooleanToString (getProp rawRecord "content__award__vendor__vendorSiteDetails__vendorSocioEconomicIndicators__isWomenOwned"))),
   ("competition_extent", lookupStr rawRecord "content__award__competition__extentCompeted__description"),
   ("set_aside_type", lookupStr rawRecord "content__award__competition__idvTypeOfSetAside__description"),
   ("number_of_offers", parseIntSafe (getProp rawRecord "content__award__competition__numberOfOffersReceived")),
   ("solicitation_procedure", lookupStr rawRecord "content__award__competition__solicitationProcedures__description"),
   ("start_date", lookupStr rawRecord "content__award__relevantContractDates__effectiveDate"),
   ("end_date", lookupStr rawRecord "content__award__relevantContractDates__currentCompletionDate"),
   ("performance_state", lookupStr rawRecord "content__award__placeOfPerformance__principalPlaceOfPerformance__stateCode"),
   ("performance_city", lookupStr rawRecord "content__award__placeOfPerformance__placeOfPerformanceZIPCode__city"),
   ("parent_contract_id", lookupStr rawRecord "content__award__awardID__referencedIDVID__PIID"),
   ("parent_contract_type", lookupStr rawRecord "content__award__contractData__referencedIDVType__description"),
   ("source_metadata", if sourceMetadata.truthy then sourceMetadata else .undef)]

/-- field-mapper.ts `mapRecords`: `mapRecord` lifted over a list, attaching
the same metadata to every record. -/
def mapRecords (rawRecords : List Record) (sourceMetadata : JSVal) : List Record :=
  rawRecords.map (fun r => mapRecord r sourceMetadata)

/-! ### contract-processor.ts -/

/-- The body of `processRecordsForCSV`'s map: copy the record, coerce the
three numeric fields (falsy becomes 0, otherwise re-parsed from the
stringified stored value), then overwrite the three business-status fields
with "Yes" exactly when the stored value is the literal string "true". -/
def processRecord (record : Record) : Record :=
  let r0 := record
  let r1 := setProp r0 "award_amount"
    (if (getProp r0 "award_amount").truthy
     then parseNumJS (getProp r0 "award_amount").toStr
     else .num 0)
  let r2 := setProp r1 "total_potential_value"
    (if (getProp r1 "total_potential_value").truthy
     then parseNumJS (getProp r1 "total_potential_value").toStr
     else .num 0)
  let r3 := setProp r2 "number_of_offers"
    (if (getProp r2 "number_of_offers").truthy
     then parseNumJS (getProp r2 "number_of_offers").toStr
     else .num 0)
  let r4 := setProp r3 "sdvosb_status"
    (.str (if (getProp r3 "sdvosb_status").isLiteralTrue then "Yes" else "No"))
  let r5 := setProp r4 "small_business_status"
    (.str (if (getProp r4 "small_business_status").isLiteralTrue then "Yes" else "No"))
  setProp r5 "women_owned_status"
    (.str (if (getProp r5 "women_owned_status").isLiteralTrue then "Yes" else "No"))

/-- contract-processor.ts `processRecordsForCSV`. -/
def processRecordsForCSV (records : List Record) : List Record :=
  records.map processRecord

/-- Does the string contain the character (JS `String.prototype.includes`
on a one-character needle)? -/
def strContainsChar (s : String) (c : Char) : Bool :=
  s.data.any (fun a => a == c)

/-- JS `value.replace(/"/g, '""')`: double every double-quote character. -/
def doubleQuotes (s : String) : String :=
  ⟨(s.data.map (fun a => if a = '"' then ['"', '"'] else [a])).flatten⟩

/-- One CSV cell as produced by `convertToCSV`'s inner map followed by
`Array.prototype.join` stringification: strings containing a comma or a
double quote are wrapped in double quotes with internal quotes doubled;
other strings are unchanged; null/undefined join as empty; other values
join as their String() form. -/
def csvCell (v : JSVal) : String :=
  match v with
  | .str s =>
    if strContainsChar s ',' || strContainsChar s '"' then "\"" ++ doubleQuotes s ++ "\""
    else s
  | .undef => ""
  | .nullv => ""
  | v => v.toStr

/-- contract-processor.ts `convertToCSV`: empty input gives the empty
string; otherwise a header row of the first processed record's keys,
then one row per record, cells looked up by header. -/
def convertToCSV (records : List Record) : String :=
  if records.isEmpty then ""
  else
    let processedRecords := processRecordsForCSV records
    let headers := (processedRecords.headD []).map (fun p => p.1)
    let csvHeaders := String.intercalate "," headers
    let csvRows := processedRecords.map (fun record =>
      String.intercalate "," (headers.map (fun h => csvCell (getProp record h))))
    String.intercalate "\n" (csvHeaders :: csvRows)

/-! ### fpds-request.ts: retrying transport

The network itself is external; one try of `makeRequest` is modelled by a
function from the attempt number to its outcome.  `makeRequestWithRetry` is
the source's loop `for (attempt = 1; attempt <= retryAttempts; attempt++)`:
a success returns at once; on failure the loop breaks when
`attempt === retryAttempts` and otherwise sleeps `retryDelay * 2^(attempt-1)`
before the next try.  The model returns the final outcome together with the
list of backoff sleeps performed and the number of tries made. -/

/-- The retry loop from attempt number `a` with `fuel` loop iterations left
(`fuel = retryAttempts - a + 1` at every real call).  The `fuel = 0` case
models the loop body never running (`retryAttempts < 1`), where the source
would `throw lastError!` with `lastError` still undefined. -/
def retryFrom (res : Nat → Except GErr String) (retryDelay retryAttempts : Nat) :
    Nat → Nat → Except GErr String × List Nat × Nat
  | _, 0 => (.error (.network "lastError is undefined"), [], 0)
  | a, fuel + 1 =>
    match res a with
    | .ok v => (.ok v, [], 1)
    | .error e =>
      if a = retryAttempts then (.error e, [], 1)
      else
        let rest := retryFrom res retryDelay retryAttempts (a + 1) fuel
        (rest.1, retryDelay * 2 ^ (a - 1) :: rest.2.1, rest.2.2 + 1)

/-- fpds-request.ts `makeRequestWithRetry`: run the loop from attempt 1. -/
def makeRequestWithRetry (res : Nat → Except GErr String) (retryDelay retryAttempts : Nat) :
    Except GErr String × List Nat × Nat :=
  retryFrom res retryDelay retryAttempts 1 retryAttempts

/-! ### fpds-request.ts: fetch orchestrator

`fetchPage` (gate acquire, HTTP, XML normalize, field map, gate release) is
external from `getData`'s point of view and is modelled as a function from
page number to that page's mapped records.  `Promise.all` is modelled by an
explicit completion schedule: tasks finish in an arbitrary order, each
writing its result into its own slot of the results array, which is read
only after every task finished. -/

/-- fpds-request.ts `PaginationInfo`. -/
structure PaginationInfo where
  currentPage : Nat
  totalPages : Nat
  totalRecords : Nat
  recordsPerPage : Nat
deriving DecidableEq

/-- fpds-request.ts `getFirstPage`: fetch page 1 and derive pagination from
it: `totalPages` is the literal 1 of the source ("would be extracted from
the XML response"), `totalRecords` and `recordsPerPage` are the first
page's record count. -/
def getFirstPage (fetchPage : Nat → List Record) : List Record × PaginationInfo :=
  let records := fetchPage 1
  (records, ⟨1, 1, records.length, records.length⟩)

/-- `Promise.all(tasks)` under a completion schedule: `order` lists the slot
indices in the order the corresponding tasks complete; each completion
stores that task's value in its own slot; the settled array is read at the
end.  For any schedule that completes every task exactly once this equals
`tasks` (proved below), which is the index-restores-order property. -/
def promiseAllSchedule {α : Type} (dflt : α) (tasks : List α) (order : List Nat) : List α :=
  (order.foldl (fun slots i => slots.set i (some (tasks.getD i dflt)))
    (List.replicate tasks.length none)).map (fun o => o.getD dflt)

/-- The part of fpds-request.ts `getData` after `getFirstPage` returned:
single-page results return immediately; otherwise one task per page
2..totalPages is created, all are awaited, and
`[firstPageRecords, ...remainingPages].flat()` is returned. -/
def getDataFrom (fetchPage : Nat → List Record) (firstPageRecords : List Record)
    (pagination : PaginationInfo) (order : List Nat) : List Record :=
  if pagination.totalPages ≤ 1 then firstPageRecords
  else
    let pagePromises := (List.range' 2 (pagination.totalPages - 1)).map fetchPage
    let remainingPages := promiseAllSchedule [] pagePromises order
    (firstPageRecords :: remainingPages).flatten

/-- fpds-request.ts `getData`: first page, derived pagination, then the
single- or multi-page path. -/
def getData (fetchPage : Nat → List Record) (order : List Nat) : List Record :=
  let fp := getFirstPage fetchPage
  getDataFrom fetchPage fp.1 fp.2 order

/-! ### fpds-request.ts: multi-query fan-out `searchContracts` -/

/-- types.ts `ContractSearchRequest`. -/
structure ContractSearchRequest where
  contracts : List String
  dateRange : Option String
  metadata : Option Record

/-- An optional string as the JS value stored in an object literal
(`LAST_MOD_DATE: request.dateRange` stores `undefined` when absent). -/
def optToJS : Option String → JSVal
  | none => .undef
  | some s => .str s

/-- One task of `searchContracts` for one contract number: build the search
parameters, construct the `FPDSRequest` (whose constructor runs
`validateSearchParams` — this happens before the `try`, so a
ValidationError rejects the task), then `getData` with failures caught and
converted to an empty result, stamping the metadata when supplied. -/
def searchTask (getDataFor : String → Except GErr (List Record))
    (request : ContractSearchRequest) (contractNumber : String) :
    Except GErr (List Record) :=
  let searchParams : List (String × JSVal) :=
    [("PIID", .str contractNumber), ("LAST_MOD_DATE", optToJS request.dateRange)]
  match validateSearchParams searchParams with
  | .error e => .error e
  | .ok _ =>
    match getDataFor contractNumber with
    | .ok records =>
      .ok (match request.metadata with
        | some m => records.map (fun r =>
            setProp r "source_metadata"
              (.obj (setProp m "source_contract_number" (.str contractNumber))))
        | none => records)
    | .error _ => .ok []

/-- fpds-request.ts static `searchContracts`: one task per contract number,
`Promise.all` over the tasks (a rejected task rejects the whole call),
results flattened in task order. -/
def searchContracts (getDataFor : String → Except GErr (List Record))
    (request : ContractSearchRequest) : Except GErr (List Record) :=
  (request.contracts.mapM (searchTask getDataFor request)).map List.flatten

/-- The `try`-block outcome of one `searchContracts` task: a fetch failure
is caught and degrades to an empty list; a success is stamped with the
request metadata plus the originating contract number when metadata was
supplied. -/
def searchTaskResult (getDataFor : String → Except GErr (List Record))
    (request : ContractSearchRequest) (c : String) : List Record :=
  match getDataFor c with
  | .ok records =>
    (match request.metadata with
     | some m => records.map (fun r =>
         setProp r "source_metadata"
           (.obj (setProp m "source_contract_number" (.str c))))
     | none => records)
  | .error _ => []

/-! ### semaphore.ts

The event loop runs `acquire`'s executor and `release` synchronously, so
each is one atomic step.  `permits` is carried as an integer so that
non-negativity is a statement, `queue` holds the queued waiters' identities
in arrival order, `holders` the identities currently holding a permit. -/

/-- The semaphore's instantaneous state plus the set of current holders. -/
structure SemState where
  permits : Int
  queue : List Nat
  holders : List Nat
deriving DecidableEq

/-- The initial state of `new Semaphore(N)`. -/
def initSem (N : Int) : SemState := ⟨N, [], []⟩

/-- A step label: which caller acquires or releases. -/
inductive SemOp where
  | acquire (w : Nat)
  | release (h : Nat)

/-- semaphore.ts transitions: `acquire` takes a permit when one is
available and otherwise appends the caller to the queue; `release`
increments the permit count and, when the queue is non-empty, shifts the
oldest waiter, decrements the count again and resolves that waiter (who
thereby becomes a holder).  A release is only taken by a current holder
(the scoped acquire/release usage of the codebase). -/
inductive SemStep : SemOp → SemState → SemState → Prop where
  | acquireGrant (w : Nat) (s : SemState) :
      0 < s.permits →
      SemStep (.acquire w) s ⟨s.permits - 1, s.queue, w :: s.holders⟩
  | acquireWait (w : Nat) (s : SemState) :
      ¬ 0 < s.permits →
      SemStep (.acquire w) s ⟨s.permits, s.queue ++ [w], s.holders⟩
  | releaseEmpty (h : Nat) (s : SemState) :
      h ∈ s.holders → s.queue = [] →
      SemStep (.release h) s ⟨s.permits + 1, [], s.holders.erase h⟩
  | releaseWake (h w : Nat) (rest : List Nat) (s : SemState) :
      h ∈ s.holders → s.queue = w :: rest →
      SemStep (.release h) s ⟨s.permits + 1 - 1, rest, w :: s.holders.erase h⟩

/-- States reachable from `new Semaphore(N)` by any interleaving of
acquire and (holder-balanced) release steps. -/
inductive SemReachable (N : Int) : SemState → Prop where
  | init : SemReachable N (initSem N)
  | step (op : SemOp) (s t : SemState) :
      SemReachable N s → SemStep op s t → SemReachable N t

/-! ### validators.ts `buildQueryString` / fpds-request.ts `buildSearchUrl`

`URLSearchParams` works on percent-encoded UTF-8, so this part of the model
works at the byte level: a JS string is its list of UTF-8 bytes.  The
serializer is the WHATWG application/x-www-form-urlencoded serializer used
by `URLSearchParams.toString()`; the decoder below is the matching parser
(what "re-decoding the query string" means in the spec). -/

namespace UrlEnc

/-- A search-parameter value as allowed by `FPDSSearchParams`:
a string, a list of strings, null, or undefined. -/
inductive ParamValue where
  | str (s : List Nat)
  | list (ls : List (List Nat))
  | nullv
  | undef
deriving DecidableEq

/-- JS String() coercion: arrays join with commas (byte 0x2C). -/
def jsString : ParamValue → List Nat
  | .str s => s
  | .list ls => List.intercalate [0x2C] ls
  | .nullv => [0x6E, 0x75, 0x6C, 0x6C]
  | .undef => [0x75, 0x6E, 0x64, 0x65, 0x66, 0x69, 0x6E, 0x65, 0x64]

/-- The filter of `buildQueryString`:
`value !== undefined && value !== null && value !== ''`. -/
def keepParam : ParamValue → Bool
  | .undef => false
  | .nullv => false
  | .str [] => false
  | _ => true

/-- Is a byte in the urlencoded-serializer safe set
(`*`, `-`, `.`, `_`, digits, letters)? -/
def isSafeByte (b : Nat) : Bool :=
  b == 0x2A || b == 0x2D || b == 0x2E || (0x30 ≤ b && b ≤ 0x39) ||
  (0x41 ≤ b && b ≤ 0x5A) || b == 0x5F || (0x61 ≤ b && b ≤ 0x7A)

/-- Uppercase hexadecimal digit byte. -/
def hexUpper (n : Nat) : Nat := if n < 10 then 0x30 + n else 0x41 + (n - 10)

/-- Percent-encode one byte: safe bytes pass through, space becomes `+`,
everything else becomes `%HH`. -/
def encodeByte (b : Nat) : List Nat :=
  if isSafeByte b then [b]
  else if b == 0x20 then [0x2B]
  else [0x25, hexUpper (b / 16), hexUpper (b % 16)]

/-- Percent-encode a byte string. -/
def urlencode (s : List Nat) : List Nat := (s.map encodeByte).flatten

/-- Join byte strings with `&` (byte 0x26) between them. -/
def joinAmp : List (List Nat) → List Nat
  | [] => []
  | [p] => p
  | p :: rest => p ++ 0x26 :: joinAmp rest

/-- `URLSearchParams.toString()`: `k=v` pairs joined by `&`. -/
def serializeQuery (prs : List (List Nat × List Nat)) : List Nat :=
  joinAmp (prs.map (fun p => urlencode p.1 ++ 0x3D :: urlencode p.2))

/-- validators.ts `buildQueryString`: append every present, non-null,
non-empty-string parameter as its String() coercion, then serialize. -/
def buildQueryString (params : List (List Nat × ParamValue)) : List Nat :=
  serializeQuery ((params.filter (fun p => keepParam p.2)).map (fun p => (p.1, jsString p.2)))

/-- fpds-request.ts `buildSearchUrl`: baseUrl, `?`, query string. -/
def buildSearchUrl (baseUrl : List Nat) (params : List (List Nat × ParamValue)) : List Nat :=
  baseUrl ++ 0x3F :: buildQueryString params

/-- The query-string part of a URL: everything after the first `?`. -/
def queryPart (url : List Nat) : List Nat :=
  (url.dropWhile (fun c => c ≠ 0x3F)).drop 1

/-- Value of a hexadecimal digit byte (0 for non-hex, as in lenient
percent-decoders). -/
def hexVal (c : Nat) : Nat :=
  if 0x30 ≤ c ∧ c ≤ 0x39 then c - 0x30
  else if 0x41 ≤ c ∧ c ≤ 0x46 then c - 0x41 + 10
  else if 0x61 ≤ c ∧ c ≤ 0x66 then c - 0x61 + 10
  else 0

/-- Percent-decode: `%HH` becomes a byte, `+` becomes space, a stray `%`
too close to the end of the string is kept literally (lenient decoding). -/
def urldecode : List Nat → List Nat
  | [] => []
  | c :: h :: l :: rest =>
    if c = 0x25 then (hexVal h * 16 + hexVal l) :: urldecode rest
    else if c = 0x2B then 0x20 :: urldecode (h :: l :: rest)
    else c :: urldecode (h :: l :: rest)
  | c :: rest =>
    if c = 0x2B then 0x20 :: urldecode rest
    else c :: urldecode rest

/-- Split a byte string on every occurrence of `b`. -/
def splitOnByte (b : Nat) : List Nat → List (List Nat)
  | [] => [[]]
  | c :: rest =>
    if c = b then [] :: splitOnByte b rest
    else
      match splitOnByte b rest with
      | [] => [[c]]
      | g :: gs => (c :: g) :: gs

/-- Split one `k=v` piece at its first `=` (a piece without `=` is a key
with empty value, as URLSearchParams parses it). -/
def splitEq : List Nat → List Nat × List Nat
  | [] => ([], [])
  | c :: rest =>
    if c = 0x3D then ([], rest)
    else
      let p := splitEq rest
      (c :: p.1, p.2)

/-- The URLSearchParams parser for a query string: split on `&`, split each
piece at its first `=`, percent-decode keys and values; the empty string
parses to no pairs. -/
def parseQuery (s : List Nat) : List (List Nat × List Nat) :=
  if s = [] then []
  else (splitOnByte 0x26 s).map (fun piece =>
    (urldecode (splitEq piece).1, urldecode (splitEq piece).2))

/-- Is a parameter value a non-empty plain string (the shape for which the
round-trip property is provable)? -/
def isPlainStrParam : ParamValue → Bool
  | .str [] => false
  | .str _ => true
  | _ => false

end UrlEnc

/-- Is a value a plain (non-array) object, i.e. one `flattenXMLPaths`
recurses into? -/
def isObjVal : JSVal → Bool
  | .obj _ => true
  | _ => false

/-! ## Helper lemmas about object property access -/

theorem getProp_map_replace (r : Record) (k : String) (v : JSVal)
    (h : r.any (fun p => p.1 == k) = true) :
    getProp (r.map (fun p => if p.1 == k then (k, v) else p)) k = v := by
  induction r with
  | nil => simp at h
  | cons p rest ih =>
    by_cases hp : (p.1 == k) = true
    · simp only [List.map_cons, if_pos hp]
      unfold getProp
      rw [List.find?_cons_of_pos _ (by simp)]
    · simp only [List.any_cons, hp, Bool.false_or] at h
      simp only [List.map_cons, if_neg hp]
      unfold getProp
      rw [List.find?_cons_of_neg _ (by simpa using hp)]
      exact ih h

theorem getProp_map_replace_ne (r : Record) (k kq : String) (v : JSVal) (hne : k ≠ kq) :
    getProp (r.map (fun p => if p.1 == k then (k, v) else p)) kq = getProp r kq := by
  induction r with
  | nil => rfl
  | cons p rest ih =>
    by_cases hp : (p.1 == k) = true
    · have hpk : p.1 = k := by simpa using hp
      simp only [List.map_cons, if_pos hp]
      unfold getProp
      rw [List.find?_cons_of_neg _ (by simpa using hne),
        List.find?_cons_of_neg _ (by simp [hpk, hne])]
      exact ih
    · simp only [List.map_cons, if_neg hp]
      by_cases hq : (p.1 == kq) = true
      · unfold getProp
        rw [List.find?_cons_of_pos _ (by simpa using hq),
          List.find?_cons_of_pos _ (by simpa using hq)]
      · unfold getProp
        rw [List.find?_cons_of_neg _ (by simpa using hq),
          List.find?_cons_of_neg _ (by simpa using hq)]
        exact ih

theorem getProp_setProp_self (r : Record) (k : String) (v : JSVal) :
    getProp (setProp r k v) k = v := by
  unfold setProp
  split
  · exact getProp_map_replace r k v (by assumption)
  · rename_i hany
    have hnone : r.find? (fun p => p.1 == k) = none := by
      rw [List.find?_eq_none]
      intro x hx hpx
      exact hany (List.any_eq_true.mpr ⟨x, hx, hpx⟩)
    unfold getProp
    rw [List.find?_append, hnone, Option.none_or,
      List.find?_cons_of_pos _ (by simp)]

theorem getProp_setProp_ne (r : Record) (k kq : String) (v : JSVal) (hne : k ≠ kq) :
    getProp (setProp r k v) kq = getProp r kq := by
  unfold setProp
  split
  · exact getProp_map_replace_ne r k kq v hne
  · unfold getProp
    rw [List.find?_append]
    have : List.find? (fun p => p.1 == kq) [(k, v)] = none := by
      simp [hne]
    rw [this, Option.or_none]

/-! ## C9: `flattenXMLPaths` is the identity on already-flat mappings -/

theorem setProp_new (res : Record) (k : String) (v : JSVal)
    (h : res.any (fun q => q.1 == k) = false) :
    setProp res k v = res ++ [(k, v)] := by
  unfold setProp
  rw [h]
  rfl

theorem flattenXMLPaths_flat_acc (o : List (String × JSVal)) (res : Record)
    (hflat : ∀ p ∈ o, isObjVal p.2 = false) :
    flattenXMLPaths o "" res = o.foldl (fun acc p => setProp acc p.1 p.2) res := by
  induction o generalizing res with
  | nil => simp [flattenXMLPaths]
  | cons p rest ih =>
    obtain ⟨k, v⟩ := p
    have hv : isObjVal v = false := hflat (k, v) (List.mem_cons_self _ _)
    have hrest : ∀ q ∈ rest, isObjVal q.2 = false :=
      fun q hq => hflat q (List.mem_cons_of_mem _ hq)
    cases v with
    | obj fields => simp [isObjVal] at hv
    | str s => simpa [flattenXMLPaths] using ih (setProp res k (.str s)) hrest
    | num n => simpa [flattenXMLPaths] using ih (setProp res k (.num n)) hrest
    | nan => simpa [flattenXMLPaths] using ih (setProp res k .nan) hrest
    | boolv b => simpa [flattenXMLPaths] using ih (setProp res k (.boolv b)) hrest
    | nullv => simpa [flattenXMLPaths] using ih (setProp res k .nullv) hrest
    | undef => simpa [flattenXMLPaths] using ih (setProp res k .undef) hrest
    | arr elems => simpa [flattenXMLPaths] using ih (setProp res k (.arr elems)) hrest

theorem foldl_setProp_append (o : List (String × JSVal)) (res : Record)
    (hdis : ∀ p ∈ o, res.any (fun q => q.1 == p.1) = false)
    (hnodup : (o.map Prod.fst).Nodup) :
    o.foldl (fun acc p => setProp acc p.1 p.2) res = res ++ o := by
  induction o generalizing res with
  | nil => simp
  | cons p rest ih =>
    simp only [List.foldl_cons]
    rw [setProp_new res p.1 p.2 (hdis p (List.mem_cons_self _ _))]
    rw [List.map_cons, List.nodup_cons] at hnodup
    rw [ih (res ++ [(p.1, p.2)])]
    · simp
    · intro q hq
      rw [List.any_append]
      have h1 : res.any (fun x => x.1 == q.1) = false :=
        hdis q (List.mem_cons_of_mem _ hq)
      have h2 : (p.1 == q.1) = false := by
        have : p.1 ≠ q.1 := by
          intro he
          exact hnodup.1 (he ▸ List.mem_map_of_mem Prod.fst hq)
        simpa using this
      simp [h1, h2]
    · exact hnodup.2

/-- C9: `flattenXMLPaths` is idempotent on already-flat input: a mapping
whose values contain no nested (non-array) objects flattens to itself —
same keys, same values, no prefix added. -/
theorem flattenXMLPaths_flat_id (o : List (String × JSVal))
    (hflat : ∀ p ∈ o, isObjVal p.2 = false)
    (hnodup : (o.map Prod.fst).Nodup) :
    flattenXMLPaths o "" [] = o := by
  rw [flattenXMLPaths_flat_acc o [] hflat,
    foldl_setProp_append o [] (fun p _ => rfl) hnodup]
  rfl

/-- Witness for C9 at a concrete flat mapping. -/
theorem flattenXMLPaths_flat_id_witness :
    (∀ p ∈ [("title", JSVal.str "a"), ("link__href", JSVal.num 2)], isObjVal p.2 = false) ∧
    flattenXMLPaths [("title", JSVal.str "a"), ("link__href", JSVal.num 2)] "" [] =
      [("title", JSVal.str "a"), ("link__href", JSVal.num 2)] :=
  ⟨by decide, flattenXMLPaths_flat_id _ (by decide) (by simp)⟩

/-! ## C10: the CSV status-field coercion always yields "No" on mapped records -/

theorem convertBooleanToString_not_literal_true (v : JSVal) :
    (JSVal.str (convertBooleanToString v)).isLiteralTrue = false := by
  unfold convertBooleanToString
  cases v <;> dsimp [JSVal.isLiteralTrue] <;> split <;> rfl

theorem processRecord_status_field (r : Record) (k : String)
    (hk : k = "sdvosb_status" ∨ k = "small_business_status" ∨ k = "women_owned_status") :
    getProp (processRecord r) k =
      .str (if (getProp r k).isLiteralTrue then "Yes" else "No") := by
  rcases hk with hk | hk | hk <;> subst hk <;>
    simp only [processRecord] <;>
    simp [getProp_setProp_self, getProp_setProp_ne]

/-- C10: `processRecordsForCSV` sets each of the three business-status
fields to "Yes" exactly when the stored value is the literal string "true"
and to "No" for every other value; since `mapRecord` stores
`convertBooleanToString` output ("Yes"/"No", never "true") in these
fields, every record built by the field mapper comes out of the CSV
processing with all three fields equal to "No", and `csvCell` renders
them as the bare cell `No`. -/
theorem status_fields_serialize_no (r rawRecord : Record) (meta : JSVal) :
    (getProp (processRecord r) "sdvosb_status" =
       .str (if (getProp r "sdvosb_status").isLiteralTrue then "Yes" else "No") ∧
     getProp (processRecord r) "small_business_status" =
       .str (if (getProp r "small_business_status").isLiteralTrue then "Yes" else "No") ∧
     getProp (processRecord r) "women_owned_status" =
       .str (if (getProp r "women_owned_status").isLiteralTrue then "Yes" else "No")) ∧
    (getProp (processRecord (mapRecord rawRecord meta)) "sdvosb_status" = .str "No" ∧
     getProp (processRecord (mapRecord rawRecord meta)) "small_business_status" = .str "No" ∧
     getProp (processRecord (mapRecord rawRecord meta)) "women_owned_status" = .str "No") ∧
    csvCell (getProp (processRecord (mapRecord rawRecord meta)) "sdvosb_status") = "No" := by
  have h1 := processRecord_status_field (mapRecord rawRecord meta) "sdvosb_status" (Or.inl rfl)
  have h2 := processRecord_status_field (mapRecord rawRecord meta) "small_business_status" (Or.inr (Or.inl rfl))
  have h3 := processRecord_status_field (mapRecord rawRecord meta) "women_owned_status" (Or.inr (Or.inr rfl))
  have g1 : getProp (mapRecord rawRecord meta) "sdvosb_status" =
      .str (convertBooleanToString (getProp rawRecord "content__award__vendor__vendorSiteDetails__vendorSocioEconomicIndicators__isServiceRelatedDisabledVeteranOwnedBusiness")) := rfl
  have g2 : getProp (mapRecord rawRecord meta) "small_business_status" =
      .str (convertBooleanToString (getProp rawRecord "content__award__vendor__vendorSiteDetails__vendorSocioEconomicIndicators__isSmallBusiness")) := rfl
  have g3 : getProp (mapRecord rawRecord meta) "women_owned_status" =
      .str (convertBooleanToString (getProp rawRecord "content__award__vendor__vendorSiteDetails__vendorSocioEconomicIndicators__isWomenOwned")) := rfl
  have e1 : getProp (processRecord (mapRecord rawRecord meta)) "sdvosb_status" = .str "No" := by
    rw [h1, g1, convertBooleanToString_not_literal_true]
    rfl
  have e2 : getProp (processRecord (mapRecord rawRecord meta)) "small_business_status" = .str "No" := by
    rw [h2, g2, convertBooleanToString_not_literal_true]
    rfl
  have e3 : getProp (processRecord (mapRecord rawRecord meta)) "women_owned_status" = .str "No" := by
    rw [h3, g3, convertBooleanToString_not_literal_true]
    rfl
  refine ⟨⟨processRecord_status_field r _ (Or.inl rfl),
           processRecord_status_field r _ (Or.inr (Or.inl rfl)),
           processRecord_status_field r _ (Or.inr (Or.inr rfl))⟩,
         ⟨e1, e2, e3⟩, ?_⟩
  rw [e1]
  decide

/-! ## C7: CSV rendering -/

/-- C7 counterexample: `convertToCSV [⟨name: 'Jane, Q.'⟩]` does not produce
the two-line output `name` / `"Jane, Q."` claimed, because
`processRecordsForCSV` first adds the coerced numeric and status fields to
the record, and the header row is computed from the processed record. -/
theorem convertToCSV_jane_counterexample :
    convertToCSV [[("name", JSVal.str "Jane, Q.")]] ≠ "name\n\"Jane, Q.\"" := by
  decide

/-- C7 (amended): `convertToCSV` renders the header row (the keys of the
first processed record) followed by one row per record; a string cell
containing a comma or a double quote is wrapped in double quotes with the
internal quotes doubled, and no other escaping is applied; on
`[⟨name: 'Jane, Q.'⟩]` the output is the seven-column header
`name,award_amount,total_potential_value,number_of_offers,sdvosb_status,small_business_status,women_owned_status`
with the data row `"Jane, Q.",0,0,0,No,No,No` — the `name` cell is the
quoted `"Jane, Q."` of the claim, but the header is not the single column
`name`. -/
theorem convertToCSV_shape :
    (∀ records : List Record, records ≠ [] →
      convertToCSV records = String.intercalate "\n"
        (String.intercalate "," (((processRecordsForCSV records).headD []).map (fun p => p.1)) ::
         (processRecordsForCSV records).map (fun record =>
           String.intercalate ","
             ((((processRecordsForCSV records).headD []).map (fun p => p.1)).map
               (fun h => csvCell (getProp record h)))))) ∧
    (∀ s : String, csvCell (.str s) =
      if strContainsChar s ',' || strContainsChar s '"'
      then "\"" ++ doubleQuotes s ++ "\"" else s) ∧
    convertToCSV [[("name", JSVal.str "Jane, Q.")]] =
      "name,award_amount,total_potential_value,number_of_offers,sdvosb_status,small_business_status,women_owned_status\n\"Jane, Q.\",0,0,0,No,No,No" := by
  refine ⟨?_, fun s => rfl, by decide⟩
  intro records hne
  unfold convertToCSV
  rw [if_neg (by simpa using hne)]

/-- Witness for the hypothesis-carrying part of the C7 theorem, at a
concrete one-record input. -/
theorem convertToCSV_shape_witness :
    ([[("title", JSVal.str "x")]] : List Record) ≠ [] ∧
    convertToCSV [[("title", JSVal.str "x")]] = String.intercalate "\n"
      (String.intercalate "," (((processRecordsForCSV [[("title", JSVal.str "x")]]).headD []).map (fun p => p.1)) ::
       (processRecordsForCSV [[("title", JSVal.str "x")]]).map (fun record =>
         String.intercalate ","
           ((((processRecordsForCSV [[("title", JSVal.str "x")]]).headD []).map (fun p => p.1)).map
             (fun h => csvCell (getProp record h))))) :=
  ⟨List.cons_ne_nil _ _, convertToCSV_shape.1 [[("title", JSVal.str "x")]] (List.cons_ne_nil _ _)⟩

/-! ## C4: retrying transport -/

theorem retryFrom_succ (res : Nat → Except GErr String) (d r a fuel : Nat) :
    retryFrom res d r a (fuel + 1) =
      match res a with
      | .ok v => (.ok v, [], 1)
      | .error e =>
        if a = r then (.error e, [], 1)
        else
          let rest := retryFrom res d r (a + 1) fuel
          (rest.1, d * 2 ^ (a - 1) :: rest.2.1, rest.2.2 + 1) := rfl

theorem backoff_range_shift (d a n : Nat) (ha : 1 ≤ a) :
    (List.range (n + 1)).map (fun i => d * 2 ^ (a - 1 + i)) =
      d * 2 ^ (a - 1) :: (List.range n).map (fun i => d * 2 ^ (a + 1 - 1 + i)) := by
  rw [List.range_succ_eq_map, List.map_cons, List.map_map, Nat.add_zero]
  refine congrArg (fun x => d * 2 ^ (a - 1) :: x) ?_
  refine congrArg (fun f => List.map f (List.range n)) ?_
  funext i
  simp only [Function.comp]
  have he : a - 1 + Nat.succ i = a + 1 - 1 + i := by omega
  rw [he]

theorem retryFrom_all_fail (res : Nat → Except GErr String) (d r : Nat) :
    ∀ n a, 1 ≤ a → a + n = r →
    (∀ i, a ≤ i → i ≤ r → (res i).isOk = false) →
    retryFrom res d r a (n + 1) =
      (res r, (List.range n).map (fun i => d * 2 ^ (a - 1 + i)), n + 1) := by
  intro n
  induction n with
  | zero =>
    intro a ha hsum hfail
    have har : a = r := by omega
    subst har
    have hres : (res a).isOk = false := hfail a le_rfl le_rfl
    cases hra : res a with
    | ok v => rw [hra] at hres; simp [Except.isOk, Except.toBool] at hres
    | error e =>
      rw [retryFrom_succ, hra]
      dsimp only
      rw [if_pos rfl]
      simp
  | succ n ih =>
    intro a ha hsum hfail
    have har : a < r := by omega
    have hres : (res a).isOk = false := hfail a le_rfl (by omega)
    cases hra : res a with
    | ok v => rw [hra] at hres; simp [Except.isOk, Except.toBool] at hres
    | error e =>
      rw [retryFrom_succ, hra]
      dsimp only
      rw [if_neg (by omega : ¬ a = r)]
      rw [ih (a + 1) (by omega) (by omega)
        (fun i hi hir => hfail i (by omega) hir)]
      rw [backoff_range_shift d a n ha]

theorem retryFrom_first_success (res : Nat → Except GErr String) (d r : Nat) :
    ∀ n a k, 1 ≤ a → a + n = r → a ≤ k → k ≤ r → (res k).isOk = true →
    (∀ i, a ≤ i → i < k → (res i).isOk = false) →
    retryFrom res d r a (n + 1) =
      (res k, (List.range (k - a)).map (fun i => d * 2 ^ (a - 1 + i)), k - a + 1) := by
  intro n
  induction n with
  | zero =>
    intro a k ha hsum hak hkr hok hfail
    have hk : k = a := by omega
    rw [hk] at hok ⊢
    cases hra : res a with
    | error e => rw [hra] at hok; simp [Except.isOk, Except.toBool] at hok
    | ok v =>
      rw [retryFrom_succ, hra]
      dsimp only
      simp
  | succ n ih =>
    intro a k ha hsum hak hkr hok hfail
    by_cases hk : k = a
    · rw [hk] at hok ⊢
      cases hra : res a with
      | error e => rw [hra] at hok; simp [Except.isOk, Except.toBool] at hok
      | ok v =>
        rw [retryFrom_succ, hra]
        dsimp only
        simp
    · have hak' : a < k := by omega
      have hres : (res a).isOk = false := hfail a le_rfl hak'
      cases hra : res a with
      | ok v => rw [hra] at hres; simp [Except.isOk, Except.toBool] at hres
      | error e =>
        rw [retryFrom_succ, hra]
        dsimp only
        rw [if_neg (by omega : ¬ a = r)]
        rw [ih (a + 1) k (by omega) (by omega) (by omega) hkr hok
          (fun i hi hik => hfail i (by omega) hik)]
        have hka : k - a = (k - (a + 1)) + 1 := by omega
        rw [hka, backoff_range_shift d a (k - (a + 1)) ha]

theorem retryFrom_all_fail_top (res : Nat → Except GErr String) (d r : Nat) (hr : 1 ≤ r)
    (hfail : ∀ i, 1 ≤ i → i ≤ r → (res i).isOk = false) :
    retryFrom res d r 1 r = (res r, (List.range (r - 1)).map (fun i => d * 2 ^ i), r) := by
  obtain ⟨n, rfl⟩ : ∃ n, r = n + 1 := ⟨r - 1, by omega⟩
  have h := retryFrom_all_fail res d (n + 1) n 1 le_rfl (by omega) hfail
  simpa using h

theorem retryFrom_first_success_top (res : Nat → Except GErr String) (d r k : Nat)
    (hk : 1 ≤ k) (hkr : k ≤ r) (hok : (res k).isOk = true)
    (hfail : ∀ i, 1 ≤ i → i < k → (res i).isOk = false) :
    retryFrom res d r 1 r = (res k, (List.range (k - 1)).map (fun i => d * 2 ^ i), k) := by
  obtain ⟨n, rfl⟩ : ∃ n, r = n + 1 := ⟨r - 1, by omega⟩
  have h := retryFrom_first_success res d (n + 1) n 1 k le_rfl (by omega) hk hkr hok hfail
  have hkk : k - 1 + 1 = k := by omega
  simpa [hkk] using h

/-- C4: for every per-attempt outcome assignment and configured
`retryAttempts` ≥ 1 and `retryDelay`, the retry loop makes at most
`retryAttempts` tries.  If every attempt fails, it makes exactly
`retryAttempts` tries, sleeps `retryDelay * 2^(attempt-1)` after every
failed try except the last, and propagates the last attempt's error value
unchanged.  If attempt `k` is the first to succeed, it returns that
response immediately after `k` tries with only the `k-1` backoff sleeps
before it. -/
theorem makeRequestWithRetry_spec (res : Nat → Except GErr String) (d r : Nat) (hr : 1 ≤ r) :
    ((∀ i, 1 ≤ i → i ≤ r → (res i).isOk = false) →
      makeRequestWithRetry res d r =
        (res r, (List.range (r - 1)).map (fun i => d * 2 ^ i), r)) ∧
    (∀ k, 1 ≤ k → k ≤ r → (res k).isOk = true →
      (∀ i, 1 ≤ i → i < k → (res i).isOk = false) →
      makeRequestWithRetry res d r =
        (res k, (List.range (k - 1)).map (fun i => d * 2 ^ i), k)) :=
  ⟨fun hfail => retryFrom_all_fail_top res d r hr hfail,
   fun k hk hkr hok hfail => retryFrom_first_success_top res d r k hk hkr hok hfail⟩

/-- Witness for C4: with `retryAttempts = 3`, `retryDelay = 1000` and a
persistently failing transport, the loop sleeps 1000ms then 2000ms and
raises the last NetworkError unchanged after the 3rd try. -/
theorem makeRequestWithRetry_spec_witness :
    1 ≤ 3 ∧
    makeRequestWithRetry (fun _ => .error (.network "connection failed")) 1000 3 =
      (.error (.network "connection failed"), [1000, 2000], 3) :=
  ⟨by decide,
   (makeRequestWithRetry_spec (fun _ => .error (.network "connection failed")) 1000 3
      (by decide)).1 (fun i _ _ => rfl)⟩

/-! ## C2 and C3: fetch orchestrator ordering and pagination -/

theorem foldl_set_getElem? {α : Type} (g : Nat → α) (order : List Nat) (slots : List α) (j : Nat) :
    (order.foldl (fun sl i => sl.set i (g i)) slots)[j]? =
      if j ∈ order ∧ j < slots.length then some (g j) else slots[j]? := by
  induction order generalizing slots with
  | nil => simp
  | cons i rest ih =>
    simp only [List.foldl_cons]
    rw [ih, List.length_set]
    by_cases hjr : j ∈ rest
    · by_cases hj : j < slots.length
      · simp [hjr, hj, List.mem_cons]
      · have h1 : (slots.set i (g i))[j]? = none := by
          rw [List.getElem?_eq_none]
          simpa using Nat.le_of_not_lt hj
        have h2 : slots[j]? = none := by
          rw [List.getElem?_eq_none]
          exact Nat.le_of_not_lt hj
        simp [hjr, hj, h1, h2, List.mem_cons]
    · by_cases hij : i = j
      · subst hij
        by_cases hj : i < slots.length
        · simp [hjr, hj, List.getElem?_set_self, List.mem_cons]
        · have h1 : (slots.set i (g i))[i]? = none := by
            rw [List.getElem?_eq_none]
            simpa using Nat.le_of_not_lt hj
          have h2 : slots[i]? = none := by
            rw [List.getElem?_eq_none]
            exact Nat.le_of_not_lt hj
          simp [hjr, hj, h1, h2]
      · have hji : ¬ j = i := fun h => hij h.symm
        simp [hjr, hji, List.getElem?_set_ne hij, List.mem_cons]

theorem promiseAllSchedule_perm {α : Type} (dflt : α) (tasks : List α) (order : List Nat)
    (hperm : List.Perm order (List.range tasks.length)) :
    promiseAllSchedule dflt tasks order = tasks := by
  unfold promiseAllSchedule
  apply List.ext_getElem?
  intro j
  rw [List.getElem?_map, foldl_set_getElem?, List.length_replicate]
  by_cases hj : j < tasks.length
  · have hmem : j ∈ order := (hperm.mem_iff).2 (List.mem_range.2 hj)
    rw [if_pos ⟨hmem, hj⟩]
    rw [List.getElem?_eq_getElem hj]
    simp [List.getD_eq_getElem?_getD, List.getElem?_eq_getElem hj]
  · have h1 : (List.replicate tasks.length (none : Option α))[j]? = none := by
      rw [List.getElem?_eq_none]
      simpa using Nat.le_of_not_lt hj
    have h2 : tasks[j]? = none := by
      rw [List.getElem?_eq_none]
      exact Nat.le_of_not_lt hj
    simp [hj, h1, h2]

/-- C2: whenever the derived pagination reports `totalPages = n > 1`, the
fan-out branch of `getData` returns page 1's records concatenated with the
records of pages 2..n in ascending page-number order, for every completion
schedule of the concurrent page tasks (results are placed by index, so
completion order cannot affect output order). -/
theorem getDataFrom_page_order (fetchPage : Nat → List Record) (firstPageRecords : List Record)
    (pagination : PaginationInfo) (order : List Nat)
    (hmulti : 1 < pagination.totalPages)
    (hsched : List.Perm order (List.range (pagination.totalPages - 1))) :
    getDataFrom fetchPage firstPageRecords pagination order =
      firstPageRecords ++ ((List.range' 2 (pagination.totalPages - 1)).map fetchPage).flatten := by
  unfold getDataFrom
  rw [if_neg (by omega)]
  show (firstPageRecords ::
    promiseAllSchedule [] ((List.range' 2 (pagination.totalPages - 1)).map fetchPage) order).flatten = _
  rw [promiseAllSchedule_perm [] _ order (by simpa using hsched)]
  simp

/-- Witness for C2: a mocked 3-page pagination where the page-3 task
completes before the page-2 task still yields page1 ++ page2 ++ page3. -/
theorem getDataFrom_page_order_witness :
    (1 < (⟨1, 3, 0, 0⟩ : PaginationInfo).totalPages) ∧
    getDataFrom (fun p => [[("page", JSVal.num p)]]) [[("page", JSVal.num 1)]]
        ⟨1, 3, 0, 0⟩ [1, 0] =
      [[("page", JSVal.num 1)]] ++
        ((List.range' 2 2).map (fun p => [[("page", JSVal.num p)]])).flatten :=
  ⟨by decide,
   getDataFrom_page_order (fun p => [[("page", JSVal.num p)]]) [[("page", JSVal.num 1)]]
     ⟨1, 3, 0, 0⟩ [1, 0] (by decide) (by decide)⟩

/-- C3: `getFirstPage` always derives `totalPages = 1` (the literal in the
source) and `totalRecords` = page 1's record count, so the multi-page
branch of `getData` is never taken and `getData` returns exactly the
records of fetching page 1, for every fetch outcome and every schedule. -/
theorem getData_single_page (fetchPage : Nat → List Record) (order : List Nat) :
    (getFirstPage fetchPage).2.totalPages = 1 ∧
    (getFirstPage fetchPage).2.totalRecords = (fetchPage 1).length ∧
    getData fetchPage order = fetchPage 1 := by
  refine ⟨rfl, rfl, ?_⟩
  unfold getData getDataFrom getFirstPage
  simp

/-! ## C1: `searchContracts` fault isolation -/

theorem checkSearchParam_piid_ok (c : String) (hc : validatePIID c = true) :
    checkSearchParam "PIID" (.str c) = .ok () := by
  unfold checkSearchParam
  simp [JSVal.isUndefOrNull, hc]

theorem checkSearchParam_date_ok (dr : Option String)
    (hd : ∀ d, dr = some d → validateDateRange d = true) :
    checkSearchParam "LAST_MOD_DATE" (optToJS dr) = .ok () := by
  cases dr with
  | none => rfl
  | some d =>
    have hval := hd d rfl
    unfold checkSearchParam optToJS
    simp [JSVal.isUndefOrNull, hval]

theorem validate_task_params_ok (c : String) (dr : Option String)
    (hc : validatePIID c = true)
    (hd : ∀ d, dr = some d → validateDateRange d = true) :
    validateSearchParams [("PIID", .str c), ("LAST_MOD_DATE", optToJS dr)] = .ok () := by
  unfold validateSearchParams
  rw [List.forM_cons', List.forM_cons']
  rw [checkSearchParam_piid_ok c hc, checkSearchParam_date_ok dr hd]
  rfl

theorem searchTask_valid (getDataFor : String → Except GErr (List Record))
    (request : ContractSearchRequest) (c : String)
    (hc : validatePIID c = true)
    (hd : ∀ d, request.dateRange = some d → validateDateRange d = true) :
    searchTask getDataFor request c = .ok (searchTaskResult getDataFor request c) := by
  unfold searchTask searchTaskResult
  dsimp only
  rw [validate_task_params_ok c request.dateRange hc hd]
  cases getDataFor c <;> rfl

theorem searchTasks_mapM (getDataFor : String → Except GErr (List Record))
    (request : ContractSearchRequest) (cs : List String)
    (hc : ∀ c ∈ cs, validatePIID c = true)
    (hd : ∀ d, request.dateRange = some d → validateDateRange d = true) :
    cs.mapM (searchTask getDataFor request) =
      .ok (cs.map (searchTaskResult getDataFor request)) := by
  induction cs with
  | nil => rfl
  | cons c rest ih =>
    rw [List.mapM_cons, searchTask_valid getDataFor request c (hc c (List.mem_cons_self _ _)) hd,
      ih (fun x hx => hc x (List.mem_cons_of_mem _ hx))]
    rfl

/-- C1 counterexample: with contracts `["A", ""]` and every fetch
succeeding, the call does not complete normally — the ValidationError
raised while constructing the second query's FPDSRequest (empty PIID) is
thrown before that task's `try` block and escapes `searchContracts`. -/
theorem searchContracts_escape_counterexample :
    (searchContracts (fun _ => .ok []) ⟨["A", ""], none, none⟩).isOk = false := by
  decide

/-- C1 (amended): when every contract identifier passes PIID validation
and the shared date range (when present) passes date-range validation,
`searchContracts` always completes: each query's fetch failure is caught
and converted to an empty result for that query only, and the call
returns the concatenation, in task order, of the per-query results of the
queries that succeeded.  (Without that proviso a ValidationError thrown
by a query's request constructor escapes the call, as the counterexample
shows.) -/
theorem searchContracts_fault_isolation (getDataFor : String → Except GErr (List Record))
    (request : ContractSearchRequest)
    (hc : ∀ c ∈ request.contracts, validatePIID c = true)
    (hd : ∀ d, request.dateRange = some d → validateDateRange d = true) :
    searchContracts getDataFor request =
      .ok ((request.contracts.map (searchTaskResult getDataFor request)).flatten) := by
  unfold searchContracts
  rw [searchTasks_mapM getDataFor request request.contracts hc hd]
  rfl

/-- Witness for C1: over `["A", "B"]` where "A"'s fetch fails with a
NetworkError and "B"'s succeeds, the call completes with "B"'s records
only. -/
theorem searchContracts_fault_isolation_witness :
    (∀ c ∈ ["A", "B"], validatePIID c = true) ∧
    searchContracts
        (fun c => if c = "A" then .error (.network "fail") else .ok [[("title", JSVal.str "B1")]])
        ⟨["A", "B"], none, none⟩ =
      .ok (((["A", "B"] : List String).map (searchTaskResult
        (fun c => if c = "A" then .error (.network "fail") else .ok [[("title", JSVal.str "B1")]])
        ⟨["A", "B"], none, none⟩)).flatten) :=
  ⟨by decide,
   searchContracts_fault_isolation
     (fun c => if c = "A" then .error (.network "fail") else .ok [[("title", JSVal.str "B1")]])
     ⟨["A", "B"], none, none⟩ (by decide) (fun d hd => nomatch hd)⟩

/-! ## C5: semaphore safety -/

theorem semInv (N : Int) (hN : 0 ≤ N) (s : SemState) (hs : SemReachable N s) :
    0 ≤ s.permits ∧ s.permits + s.holders.length = N ∧ (s.queue ≠ [] → s.permits = 0) := by
  induction hs with
  | init => simpa [initSem] using hN
  | step op s t hs hstep ih =>
    obtain ⟨ih1, ih2, ih3⟩ := ih
    cases hstep with
    | acquireGrant w s' hp =>
      refine ⟨by dsimp only; omega, ?_, ?_⟩
      · dsimp only
        simp only [List.length_cons]
        push_cast
        omega
      · intro hq
        dsimp only at hq ⊢
        have := ih3 hq
        omega
    | acquireWait w s' hp =>
      refine ⟨ih1, ih2, ?_⟩
      intro _
      dsimp only
      omega
    | releaseEmpty h s' hh hq =>
      have hpos : 0 < s.holders.length := List.length_pos_of_mem hh
      refine ⟨by dsimp only; omega, ?_, ?_⟩
      · dsimp only
        rw [List.length_erase_of_mem hh]
        omega
      · intro hq'
        exact absurd rfl hq'
    | releaseWake h w rest s' hh hq =>
      have hpos : 0 < s.holders.length := List.length_pos_of_mem hh
      have hp0 : s.permits = 0 := ih3 (by rw [hq]; exact List.cons_ne_nil _ _)
      refine ⟨by dsimp only; omega, ?_, ?_⟩
      · dsimp only
        simp only [List.length_cons]
        rw [List.length_erase_of_mem hh]
        push_cast at ih2 ⊢
        omega
      · intro hrest
        dsimp only
        omega

/-- C5: from any state reachable from `new Semaphore(N)` with `N > 0`
under holder-balanced interleavings, the permit count is never negative
and at most `N` holders exist; and every release taken in a state with a
non-empty waiter queue admits exactly the oldest waiter (the queue head):
the releaser leaves the holders, the head waiter joins them, the rest of
the queue is kept in order and the permit count is unchanged. -/
theorem semaphore_safety (N : Int) (hN : 0 < N) (s : SemState) (hs : SemReachable N s) :
    0 ≤ s.permits ∧ ((s.holders.length : Int) ≤ N ∧
    ∀ h w rest t, s.queue = w :: rest → SemStep (.release h) s t →
      t.holders = w :: s.holders.erase h ∧ t.queue = rest ∧ t.permits = s.permits) := by
  obtain ⟨h1, h2, h3⟩ := semInv N (le_of_lt hN) s hs
  refine ⟨h1, by omega, ?_⟩
  intro h w rest t hq hstep
  cases hstep with
  | releaseEmpty h' s' hh hqe =>
    rw [hq] at hqe
    exact absurd hqe (List.cons_ne_nil _ _)
  | releaseWake h' w' rest' s' hh hq' =>
    rw [hq] at hq'
    obtain ⟨hw, hrest⟩ : w = w' ∧ rest = rest' := by
      have := List.cons.inj hq'
      exact ⟨this.1, this.2⟩
    subst hw
    subst hrest
    refine ⟨rfl, rfl, ?_⟩
    dsimp only
    omega

theorem semReachExample : SemReachable 1 ⟨0, [1], [0]⟩ := by
  refine SemReachable.step (.acquire 1) ⟨0, [], [0]⟩ _ ?_ ?_
  · refine SemReachable.step (.acquire 0) (initSem 1) _ SemReachable.init ?_
    have h := SemStep.acquireGrant 0 (initSem 1) (by norm_num [initSem])
    have he : (⟨(initSem 1).permits - 1, (initSem 1).queue, 0 :: (initSem 1).holders⟩ : SemState) =
        ⟨0, [], [0]⟩ := by
      simp [initSem]
    exact he ▸ h
  · have h := SemStep.acquireWait 1 (⟨0, [], [0]⟩ : SemState) (by norm_num)
    simpa using h

/-- Witness for C5 at a concrete reachable state (capacity 1, one holder,
one queued waiter). -/
theorem semaphore_safety_witness :
    (0 : Int) < 1 ∧
    (0 ≤ (⟨0, [1], [0]⟩ : SemState).permits ∧
     (((⟨0, [1], [0]⟩ : SemState).holders.length : Int) ≤ 1 ∧
      ∀ h w rest t, (⟨0, [1], [0]⟩ : SemState).queue = w :: rest →
        SemStep (.release h) ⟨0, [1], [0]⟩ t →
        t.holders = w :: (⟨0, [1], [0]⟩ : SemState).holders.erase h ∧
        t.queue = rest ∧ t.permits = (⟨0, [1], [0]⟩ : SemState).permits)) :=
  ⟨by norm_num, semaphore_safety 1 (by norm_num) _ semReachExample⟩

/-! ## C8: `generateContractHash` -/

theorem colon_join_inj_aux (xs : List Char) (ys zs ws : List Char)
    (hx : ':' ∉ xs) (hz : ':' ∉ zs)
    (h : xs ++ ':' :: ys = zs ++ ':' :: ws) : xs = zs ∧ ys = ws := by
  induction xs generalizing zs with
  | nil =>
    cases zs with
    | nil => simpa using h
    | cons c zs' =>
      simp only [List.nil_append, List.cons_append, List.cons.injEq] at h
      exact absurd (by rw [h.1]; exact List.mem_cons_self _ _) hz
  | cons x xs' ih =>
    cases zs with
    | nil =>
      simp only [List.nil_append, List.cons_append, List.cons.injEq] at h
      exact absurd (by rw [← h.1]; exact List.mem_cons_self _ _) hx
    | cons z zs' =>
      simp only [List.cons_append, List.cons.injEq] at h
      have hx' : ':' ∉ xs' := fun hm => hx (List.mem_cons_of_mem _ hm)
      have hz' : ':' ∉ zs' := fun hm => hz (List.mem_cons_of_mem _ hm)
      obtain ⟨h1, h2⟩ := ih zs' hx' hz' h.2
      exact ⟨by rw [h.1, h1], h2⟩

theorem colon_join_inj (a b c d : String)
    (ha : ':' ∉ a.data) (hc : ':' ∉ c.data)
    (h : a ++ ":" ++ b = c ++ ":" ++ d) : a = c ∧ b = d := by
  have hd : a.data ++ ':' :: b.data = c.data ++ ':' :: d.data := by
    have h2 := congrArg String.data h
    simpa [String.data_append] using h2
  obtain ⟨h1, h2⟩ := colon_join_inj_aux a.data b.data c.data d.data ha hc hd
  constructor
  · cases a
    cases c
    exact congrArg String.mk (by simpa using h1)
  · cases b
    cases d
    exact congrArg String.mk (by simpa using h2)

/-- C8 counterexample: two distinct input pairs whose colon-joined
encodings coincide, so their hashes are equal with certainty rather than
differing with overwhelming probability. -/
theorem generateContractHash_collision_counterexample :
    ("x:", "y") ≠ (("x", ":y") : String × String) ∧
    generateContractHash "x:" "y" = generateContractHash "x" ":y" := by
  constructor
  · decide
  · show sha256Hex ("x:" ++ ":" ++ "y") = sha256Hex ("x" ++ ":" ++ ":y")
    exact congrArg sha256Hex (by decide)

/-- C8 (amended): `generateContractHash(a, b)` is the SHA-256 hex digest of
`a ++ ":" ++ b`; it is a pure function (identical inputs give identical
output); and when neither first component contains a colon the digest
inputs of distinct pairs are distinct (so the hashes differ with
overwhelming probability) — pairs whose colon-joined encodings coincide,
such as ("x:","y") and ("x",":y"), collide with certainty. -/
theorem generateContractHash_spec (a b c d : String)
    (ha : ':' ∉ a.data) (hc : ':' ∉ c.data) :
    generateContractHash a b = sha256Hex (a ++ ":" ++ b) ∧
    generateContractHash a b = generateContractHash a b ∧
    (a ++ ":" ++ b = c ++ ":" ++ d → a = c ∧ b = d) :=
  ⟨rfl, rfl, fun h => colon_join_inj a b c d ha hc h⟩

/-- Witness for C8 at concrete colon-free inputs. -/
theorem generateContractHash_spec_witness :
    (':' ∉ "x".data) ∧
    (generateContractHash "x" "y" = sha256Hex ("x" ++ ":" ++ "y") ∧
     generateContractHash "x" "y" = generateContractHash "x" "y" ∧
     ("x" ++ ":" ++ "y" = "x" ++ ":" ++ "y" → "x" = "x" ∧ "y" = "y")) :=
  ⟨by decide, generateContractHash_spec "x" "y" "x" "y" (by decide) (by decide)⟩

/-! ## C6: query-string round-trip -/

namespace UrlEnc

theorem hexVal_hexUpper : ∀ x < 16, hexVal (hexUpper x) = x := by decide

theorem hexUpper_ne (x : Nat) : hexUpper x ≠ 0x26 ∧ hexUpper x ≠ 0x3D := by
  unfold hexUpper
  split <;> constructor <;> intro h <;> omega

theorem urldecode_cons_plain (c : Nat) (rest : List Nat)
    (h25 : c ≠ 0x25) (h2B : c ≠ 0x2B) :
    urldecode (c :: rest) = c :: urldecode rest := by
  match rest with
  | [] => simp [urldecode, h2B]
  | [x] => simp [urldecode, h2B]
  | x :: y :: t => simp [urldecode, h25, h2B]

theorem urldecode_cons_plus (rest : List Nat) :
    urldecode (0x2B :: rest) = 0x20 :: urldecode rest := by
  match rest with
  | [] => simp [urldecode]
  | [x] => simp [urldecode]
  | x :: y :: t => simp [urldecode]

theorem urldecode_cons_pct (h l : Nat) (rest : List Nat) :
    urldecode (0x25 :: h :: l :: rest) = (hexVal h * 16 + hexVal l) :: urldecode rest := by
  simp [urldecode]

theorem urldecode_encodeByte (b : Nat) (hb : b < 256) (rest : List Nat) :
    urldecode (encodeByte b ++ rest) = b :: urldecode rest := by
  unfold encodeByte
  by_cases hs : isSafeByte b = true
  · rw [if_pos hs]
    have h25 : b ≠ 0x25 := by
      intro h
      rw [h] at hs
      exact absurd hs (by decide)
    have h2B : b ≠ 0x2B := by
      intro h
      rw [h] at hs
      exact absurd hs (by decide)
    simpa using urldecode_cons_plain b rest h25 h2B
  · rw [if_neg hs]
    by_cases h20 : (b == 0x20) = true
    · rw [if_pos h20]
      have hb20 : b = 0x20 := by simpa using h20
      rw [hb20]
      simpa using urldecode_cons_plus rest
    · rw [if_neg h20]
      have := urldecode_cons_pct (hexUpper (b / 16)) (hexUpper (b % 16)) rest
      simp only [List.cons_append, List.nil_append]
      rw [this]
      have hhi := hexVal_hexUpper (b / 16) (by omega)
      have hlo := hexVal_hexUpper (b % 16) (by omega)
      rw [hhi, hlo]
      have : b / 16 * 16 + b % 16 = b := by omega
      rw [this]

theorem urlencode_cons (b : Nat) (s : List Nat) :
    urlencode (b :: s) = encodeByte b ++ urlencode s := by
  simp [urlencode]

theorem urldecode_urlencode (s : List Nat) (hs : ∀ b ∈ s, b < 256) :
    urldecode (urlencode s) = s := by
  induction s with
  | nil => rfl
  | cons b rest ih =>
    rw [urlencode_cons, urldecode_encodeByte b (hs b (List.mem_cons_self _ _)),
      ih (fun x hx => hs x (List.mem_cons_of_mem _ hx))]

theorem encodeByte_mem_ne (b c : Nat) (hc : c ∈ encodeByte b) :
    c ≠ 0x26 ∧ c ≠ 0x3D := by
  unfold encodeByte at hc
  by_cases hs : isSafeByte b = true
  · rw [if_pos hs] at hc
    simp only [List.mem_singleton] at hc
    subst hc
    constructor <;> intro h <;> rw [h] at hs <;> exact absurd hs (by decide)
  · rw [if_neg hs] at hc
    by_cases h20 : (b == 0x20) = true
    · rw [if_pos h20] at hc
      simp only [List.mem_singleton] at hc
      subst hc
      exact ⟨by decide, by decide⟩
    · rw [if_neg h20] at hc
      simp only [List.mem_cons, List.mem_singleton, List.not_mem_nil, or_false] at hc
      rcases hc with hc | hc | hc
      · subst hc
        exact ⟨by decide, by decide⟩
      · subst hc
        exact hexUpper_ne _
      · subst hc
        exact hexUpper_ne _

theorem urlencode_mem_ne (s : List Nat) (c : Nat) (hc : c ∈ urlencode s) :
    c ≠ 0x26 ∧ c ≠ 0x3D := by
  unfold urlencode at hc
  rw [List.mem_flatten] at hc
  obtain ⟨l, hl, hcl⟩ := hc
  rw [List.mem_map] at hl
  obtain ⟨b, _, rfl⟩ := hl
  exact encodeByte_mem_ne b c hcl

theorem splitOnByte_cons (sep c : Nat) (rest : List Nat) :
    splitOnByte sep (c :: rest) =
      if c = sep then [] :: splitOnByte sep rest
      else
        match splitOnByte sep rest with
        | [] => [[c]]
        | g :: gs => (c :: g) :: gs := rfl

theorem splitOnByte_no_sep (sep : Nat) (p : List Nat) (hp : sep ∉ p) :
    splitOnByte sep p = [p] := by
  induction p with
  | nil => rfl
  | cons c rest ih =>
    have hc : ¬ c = sep := fun h => hp (by rw [h]; exact List.mem_cons_self _ _)
    rw [splitOnByte_cons, if_neg hc, ih (fun hm => hp (List.mem_cons_of_mem _ hm))]

theorem splitOnByte_append_sep (sep : Nat) (p rest : List Nat) (hp : sep ∉ p) :
    splitOnByte sep (p ++ sep :: rest) = p :: splitOnByte sep rest := by
  induction p with
  | nil => rw [List.nil_append, splitOnByte_cons, if_pos rfl]
  | cons c p' ih =>
    have hc : ¬ c = sep := fun h => hp (by rw [h]; exact List.mem_cons_self _ _)
    rw [List.cons_append, splitOnByte_cons, if_neg hc,
      ih (fun hm => hp (List.mem_cons_of_mem _ hm))]

theorem splitOnByte_joinAmp (pieces : List (List Nat))
    (hne : pieces ≠ []) (hp : ∀ p ∈ pieces, (0x26 : Nat) ∉ p) :
    splitOnByte 0x26 (joinAmp pieces) = pieces := by
  induction pieces with
  | nil => exact absurd rfl hne
  | cons p rest ih =>
    cases rest with
    | nil =>
      rw [show joinAmp [p] = p from rfl]
      exact splitOnByte_no_sep 0x26 p (hp p (List.mem_cons_self _ _))
    | cons q rest' =>
      rw [show joinAmp (p :: q :: rest') = p ++ 0x26 :: joinAmp (q :: rest') from rfl]
      rw [splitOnByte_append_sep 0x26 p _ (hp p (List.mem_cons_self _ _))]
      rw [ih (List.cons_ne_nil _ _) (fun x hx => hp x (List.mem_cons_of_mem _ hx))]

theorem splitEq_append (k v : List Nat) (hk : (0x3D : Nat) ∉ k) :
    splitEq (k ++ 0x3D :: v) = (k, v) := by
  induction k with
  | nil => simp [splitEq]
  | cons c k' ih =>
    have hc : ¬ c = 0x3D := fun h => hk (by rw [h]; exact List.mem_cons_self _ _)
    rw [List.cons_append,
      show splitEq (c :: (k' ++ 0x3D :: v)) =
        (if c = 0x3D then ([], k' ++ 0x3D :: v)
         else ((c :: (splitEq (k' ++ 0x3D :: v)).1, (splitEq (k' ++ 0x3D :: v)).2))) from rfl,
      if_neg hc, ih (fun hm => hk (List.mem_cons_of_mem _ hm))]

theorem serializeQuery_cons_ne_nil (p : List Nat × List Nat)
    (rest : List (List Nat × List Nat)) :
    serializeQuery (p :: rest) ≠ [] := by
  unfold serializeQuery
  rw [List.map_cons]
  cases hr : rest.map (fun p => urlencode p.1 ++ 0x3D :: urlencode p.2) with
  | nil =>
    rw [show joinAmp [urlencode p.1 ++ 0x3D :: urlencode p.2] =
      urlencode p.1 ++ 0x3D :: urlencode p.2 from rfl]
    simp
  | cons q rest' =>
    rw [show joinAmp ((urlencode p.1 ++ 0x3D :: urlencode p.2) :: q :: rest') =
      (urlencode p.1 ++ 0x3D :: urlencode p.2) ++ 0x26 :: joinAmp (q :: rest') from rfl]
    simp

theorem encPiece_no_amp (pr : List Nat × List Nat) (c : Nat)
    (hc : c ∈ urlencode pr.1 ++ 0x3D :: urlencode pr.2) : ¬ c = 0x26 := by
  intro he
  subst he
  rw [List.mem_append, List.mem_cons] at hc
  rcases hc with hc | hc | hc
  · exact (urlencode_mem_ne pr.1 _ hc).1 rfl
  · exact absurd hc (by decide)
  · exact (urlencode_mem_ne pr.2 _ hc).1 rfl

theorem parsePiece_enc (pr : List Nat × List Nat)
    (hk : ∀ b ∈ pr.1, b < 256) (hv : ∀ b ∈ pr.2, b < 256) :
    (urldecode (splitEq (urlencode pr.1 ++ 0x3D :: urlencode pr.2)).1,
     urldecode (splitEq (urlencode pr.1 ++ 0x3D :: urlencode pr.2)).2) = pr := by
  rw [splitEq_append _ _ (fun hm => (urlencode_mem_ne pr.1 _ hm).2 rfl)]
  rw [urldecode_urlencode pr.1 hk, urldecode_urlencode pr.2 hv]

theorem parseQuery_serializeQuery (prs : List (List Nat × List Nat))
    (h : ∀ p ∈ prs, (∀ b ∈ p.1, b < 256) ∧ (∀ b ∈ p.2, b < 256)) :
    parseQuery (serializeQuery prs) = prs := by
  cases prs with
  | nil => rfl
  | cons p rest =>
    unfold parseQuery
    rw [if_neg (serializeQuery_cons_ne_nil p rest)]
    have hsplit : splitOnByte 0x26 (serializeQuery (p :: rest)) =
        (p :: rest).map (fun pr => urlencode pr.1 ++ 0x3D :: urlencode pr.2) := by
      unfold serializeQuery
      apply splitOnByte_joinAmp
      · simp
      · intro q hq
        rw [List.mem_map] at hq
        obtain ⟨pr, _, rfl⟩ := hq
        intro hmem
        exact encPiece_no_amp pr _ hmem rfl
    rw [hsplit, List.map_map]
    have : ∀ pr ∈ p :: rest,
        ((fun piece => (urldecode (splitEq piece).1, urldecode (splitEq piece).2)) ∘
          (fun pr => urlencode pr.1 ++ 0x3D :: urlencode pr.2)) pr = id pr := by
      intro pr hpr
      simp only [Function.comp, id]
      exact parsePiece_enc pr (h pr hpr).1 (h pr hpr).2
    rw [List.map_congr_left this, List.map_id]

theorem queryPart_append (baseUrl : List Nat) (q : List Nat)
    (hbase : (0x3F : Nat) ∉ baseUrl) :
    queryPart (baseUrl ++ 0x3F :: q) = q := by
  unfold queryPart
  induction baseUrl with
  | nil =>
    rw [List.nil_append, List.dropWhile_cons]
    simp
  | cons c rest ih =>
    have hc : c ≠ 0x3F := fun h => hbase (by rw [h]; exact List.mem_cons_self _ _)
    rw [List.cons_append, List.dropWhile_cons, if_pos (by simpa using hc)]
    exact ih (fun hm => hbase (List.mem_cons_of_mem _ hm))

theorem keepParam_of_plain (v : ParamValue) (hv : isPlainStrParam v = true) :
    keepParam v = true := by
  cases v with
  | str s =>
    cases s with
    | nil => simp [isPlainStrParam] at hv
    | cons b t => rfl
  | list ls => simp [isPlainStrParam] at hv
  | nullv => simp [isPlainStrParam] at hv
  | undef => simp [isPlainStrParam] at hv

/-- C6 counterexample: a parameter whose value is the empty string is
dropped from the URL entirely (`value !== ''` filter), so decoding the
query string of the `buildSearchUrl` output loses the key — the original
parameter set is not reproduced. -/
theorem buildSearchUrl_roundtrip_counterexample :
    parseQuery (queryPart (buildSearchUrl [0x42] [([0x41], ParamValue.str [])])) ≠
      [([0x41], jsString (ParamValue.str []))] := by
  decide

/-- C6 (amended): the round-trip holds for parameter mappings whose values
are non-empty plain strings (of bytes): decoding the query string of the
`buildSearchUrl` output reproduces every key with its value.  It fails
outside that fragment, in exactly two ways: an empty-string value is
dropped from the URL (key lost, see the counterexample), and a list value
is serialized as `String(value)` — its comma-joined form — so it decodes
to that single string rather than to the original list. -/
theorem buildSearchUrl_roundtrip (baseUrl : List Nat) (params : List (List Nat × ParamValue))
    (hbase : (0x3F : Nat) ∉ baseUrl)
    (hplain : ∀ p ∈ params, isPlainStrParam p.2 = true)
    (hbytes : ∀ p ∈ params, ((p.1 ++ jsString p.2).all (fun b => decide (b < 256))) = true) :
    parseQuery (queryPart (buildSearchUrl baseUrl params)) =
      params.map (fun p => (p.1, jsString p.2)) := by
  have h1 : queryPart (buildSearchUrl baseUrl params) = buildQueryString params := by
    unfold buildSearchUrl
    exact queryPart_append baseUrl _ hbase
  rw [h1]
  unfold buildQueryString
  have hfilter : params.filter (fun p => keepParam p.2) = params := by
    apply List.filter_eq_self.mpr
    intro p hp
    exact keepParam_of_plain p.2 (hplain p hp)
  rw [hfilter]
  apply parseQuery_serializeQuery
  intro q hq
  rw [List.mem_map] at hq
  obtain ⟨p, hp, rfl⟩ := hq
  have hb := hbytes p hp
  rw [List.all_append] at hb
  simp only [Bool.and_eq_true, List.all_eq_true, decide_eq_true_eq] at hb
  exact ⟨hb.1, hb.2⟩

/-- Witness for C6 at a concrete parameter mapping (key "A", value ",a" —
a value that actually exercises percent-encoding). -/
theorem buildSearchUrl_roundtrip_witness :
    ((0x3F : Nat) ∉ [0x42]) ∧
    parseQuery (queryPart (buildSearchUrl [0x42] [([0x41], ParamValue.str [0x2C, 0x61])])) =
      [([0x41], ParamValue.str [0x2C, 0x61])].map (fun p => (p.1, jsString p.2)) :=
  ⟨by decide,
   buildSearchUrl_roundtrip [0x42] [([0x41], ParamValue.str [0x2C, 0x61])]
     (by decide) (by decide) (by decide)⟩

end UrlEnc

end GovData
